import Mathlib

/-!
Verification development for the wmon-indexer repository.

Shallow embedding of the core modules:
  * `src/trackers/balanceTracker.ts` — the in-memory balance ledger
    (`updateBalance`, `getTopHolders`, `getStats`);
  * `src/trackers/transactionGrouper.ts` — the transaction grouper
    (`addTransfer`, `flushPendingTransactions`);
  * `src/index.ts` — the connection supervisor's backoff computations
    (`connectWithRetry`, `handleDisconnect`).

JavaScript `Map`s are modelled as insertion-ordered association lists with
first-match lookup (a `Map` holds each key once, `set` on an existing key
keeps its position, new keys are appended, and iteration follows insertion
order).  `Array.prototype.sort` (stable since ES2019) is modelled by
a stable sort (`List.insertionSort`) under the comparator's total preorder.  `bigint`
values are modelled by `Int`, block numbers / log indices / timestamps by
`Nat`, and millisecond delays (JS floats from `Math.random`) by `ℚ`.
-/

/-! ## Insertion-ordered map model (JavaScript `Map`) -/

/-- `Map.get`: first entry with the given key, if any. -/
def mapGet {β : Type} : List (String × β) → String → Option β
  | [], _ => none
  | (k', v) :: rest, k => if k' = k then some v else mapGet rest k

/-- `Map.set`: replace the value at the first entry with the given key,
keeping its position; append a new entry when the key is absent. -/
def mapSet {β : Type} : List (String × β) → String → β → List (String × β)
  | [], k, v => [(k, v)]
  | (k', v') :: rest, k, v =>
      if k' = k then (k', v) :: rest else (k', v') :: mapSet rest k v

theorem mapGet_mapSet_self {β : Type} (m : List (String × β)) (k : String) (v : β) :
    mapGet (mapSet m k v) k = some v := by
  induction m with
  | nil => simp [mapGet, mapSet]
  | cons p rest ih =>
    obtain ⟨k', v'⟩ := p
    by_cases h : k' = k
    · simp [mapGet, mapSet, h]
    · simp [mapGet, mapSet, h, ih]

theorem mapGet_mapSet_ne {β : Type} (m : List (String × β)) (k k' : String) (v : β)
    (h : k' ≠ k) : mapGet (mapSet m k v) k' = mapGet m k' := by
  have hk : k ≠ k' := Ne.symm h
  induction m with
  | nil => simp [mapGet, mapSet, hk]
  | cons p rest ih =>
    obtain ⟨k₀, v₀⟩ := p
    by_cases h₀ : k₀ = k
    · subst h₀
      simp [mapGet, mapSet, hk]
    · simp [mapGet, mapSet, h₀, ih]

theorem mem_mapSet {β : Type} (m : List (String × β)) (k : String) (v : β) :
    ∀ q ∈ mapSet m k v, q ∈ m ∨ q = (k, v) := by
  intro q hq
  induction m with
  | nil =>
    simp [mapSet] at hq
    exact Or.inr hq
  | cons p rest ih =>
    obtain ⟨k₀, v₀⟩ := p
    by_cases hk : k₀ = k
    · subst hk
      simp [mapSet] at hq
      rcases hq with hq | hq
      · exact Or.inr (by simp [hq])
      · exact Or.inl (List.mem_cons_of_mem _ hq)
    · simp [mapSet, hk] at hq
      rcases hq with hq | hq
      · exact Or.inl (by simp [hq])
      · rcases ih hq with h | h
        · exact Or.inl (List.mem_cons_of_mem _ h)
        · exact Or.inr h

/-! ## Balance ledger (`src/trackers/balanceTracker.ts`) -/

/-- The module-level mutable state of `balanceTracker.ts`:
`balances : Map<string, bigint>` and the counter `totalTransfers`. -/
structure BalanceTracker where
  balances : List (String × Int)
  totalTransfers : Nat
deriving DecidableEq

/-- `const ZERO_ADDRESS = '0x0000000000000000000000000000000000000000'`. -/
def ZERO_ADDRESS : String := "0x0000000000000000000000000000000000000000"

/-- `updateBalance(from, to, value)`: bump `totalTransfers`; subtract `value`
from the sender's balance unless the sender is the zero address; add `value`
to the receiver's balance unless the receiver is the zero address. -/
def updateBalance (st : BalanceTracker) (from_ to_ : String) (value : Int) :
    BalanceTracker :=
  let st₁ : BalanceTracker := { st with totalTransfers := st.totalTransfers + 1 }
  let fromBalance : Int := (mapGet st₁.balances from_).getD 0
  let st₂ : BalanceTracker :=
    if from_ ≠ ZERO_ADDRESS then
      { st₁ with balances := mapSet st₁.balances from_ (fromBalance - value) }
    else st₁
  let toBalance : Int := (mapGet st₂.balances to_).getD 0
  if to_ ≠ ZERO_ADDRESS then
    { st₂ with balances := mapSet st₂.balances to_ (toBalance + value) }
  else st₂

/-- An account's tracked balance delta: the map entry, defaulting to `0`
(`balances.get(a) ?? 0n`). -/
def delta (st : BalanceTracker) (a : String) : Int :=
  (mapGet st.balances a).getD 0

/-- Result record of `getStats()`. -/
structure LedgerStats where
  totalHolders : Nat
  totalTransfers : Nat
deriving DecidableEq

/-- `getStats()`: the number of known accounts (`balances.size`) and the
number of events applied. -/
def getStats (st : BalanceTracker) : LedgerStats :=
  { totalHolders := st.balances.length, totalTransfers := st.totalTransfers }

/-! ### Claims about the balance ledger -/

/-- C5: for every ledger state, distinct non-null accounts `A`, `B` and amount
`v`, applying `updateBalance A B v` then `updateBalance B A v` returns every
account's delta (in particular `A`'s and `B`'s) to its value before the pair
of calls. -/
theorem updateBalance_roundTrip (st : BalanceTracker) (A B : String) (v : Int)
    (hA : A ≠ ZERO_ADDRESS) (hB : B ≠ ZERO_ADDRESS) (hAB : A ≠ B) (c : String) :
    delta (updateBalance (updateBalance st A B v) B A v) c = delta st c := by
  have hBA : B ≠ A := Ne.symm hAB
  by_cases hcA : c = A
  · subst hcA
    simp [updateBalance, delta, hA, hB, hAB, hBA,
      mapGet_mapSet_self, mapGet_mapSet_ne]
  · by_cases hcB : c = B
    · subst hcB
      simp [updateBalance, delta, hA, hB, hAB, hBA,
        mapGet_mapSet_self, mapGet_mapSet_ne]
    · simp [updateBalance, delta, hA, hB, hcA, hcB,
        mapGet_mapSet_self, mapGet_mapSet_ne]

/-- C5 witness: round-trip at a concrete ledger and accounts. -/
theorem updateBalance_roundTrip_witness :
    delta (updateBalance (updateBalance ⟨[("0xc", 7)], 3⟩ "0xa" "0xb" 5) "0xb" "0xa" 5) "0xa" =
      delta (⟨[("0xc", 7)], 3⟩ : BalanceTracker) "0xa" :=
  updateBalance_roundTrip ⟨[("0xc", 7)], 3⟩ "0xa" "0xb" 5 (by decide) (by decide)
    (by decide) "0xa"

/-- C6: a mint `updateBalance ZERO_ADDRESS A v` increments only `A`'s delta by
`v`; a burn `updateBalance A ZERO_ADDRESS v` decrements only `A`'s delta by
`v`; in neither case is any other account's entry — in particular the zero
address's own entry — created or changed. -/
theorem updateBalance_mint_burn (st : BalanceTracker) (A : String) (v : Int)
    (hA : A ≠ ZERO_ADDRESS) :
    delta (updateBalance st ZERO_ADDRESS A v) A = delta st A + v ∧
    (∀ c, c ≠ A →
      mapGet (updateBalance st ZERO_ADDRESS A v).balances c = mapGet st.balances c) ∧
    mapGet (updateBalance st ZERO_ADDRESS A v).balances ZERO_ADDRESS =
      mapGet st.balances ZERO_ADDRESS ∧
    delta (updateBalance st A ZERO_ADDRESS v) A = delta st A - v ∧
    (∀ c, c ≠ A →
      mapGet (updateBalance st A ZERO_ADDRESS v).balances c = mapGet st.balances c) ∧
    mapGet (updateBalance st A ZERO_ADDRESS v).balances ZERO_ADDRESS =
      mapGet st.balances ZERO_ADDRESS := by
  have hZA : ZERO_ADDRESS ≠ A := Ne.symm hA
  refine ⟨?_, ?_, ?_, ?_, ?_, ?_⟩
  · simp [updateBalance, delta, hA, mapGet_mapSet_self]
  · intro c hc
    simp [updateBalance, delta, hA, mapGet_mapSet_ne _ _ _ _ hc]
  · simp [updateBalance, delta, hA, mapGet_mapSet_ne _ _ _ _ hZA]
  · simp [updateBalance, delta, hA, mapGet_mapSet_self]
  · intro c hc
    simp [updateBalance, delta, hA, mapGet_mapSet_ne _ _ _ _ hc]
  · simp [updateBalance, delta, hA, mapGet_mapSet_ne _ _ _ _ hZA]

/-- C6 witness: mint/burn frame conditions at a concrete ledger. -/
theorem updateBalance_mint_burn_witness :
    delta (updateBalance ⟨[("0xc", 7)], 3⟩ ZERO_ADDRESS "0xa" 5) "0xa" =
      delta (⟨[("0xc", 7)], 3⟩ : BalanceTracker) "0xa" + 5 ∧
    (∀ c, c ≠ "0xa" →
      mapGet (updateBalance ⟨[("0xc", 7)], 3⟩ ZERO_ADDRESS "0xa" 5).balances c =
        mapGet (⟨[("0xc", 7)], 3⟩ : BalanceTracker).balances c) ∧
    mapGet (updateBalance ⟨[("0xc", 7)], 3⟩ ZERO_ADDRESS "0xa" 5).balances ZERO_ADDRESS =
      mapGet (⟨[("0xc", 7)], 3⟩ : BalanceTracker).balances ZERO_ADDRESS ∧
    delta (updateBalance ⟨[("0xc", 7)], 3⟩ "0xa" ZERO_ADDRESS 5) "0xa" =
      delta (⟨[("0xc", 7)], 3⟩ : BalanceTracker) "0xa" - 5 ∧
    (∀ c, c ≠ "0xa" →
      mapGet (updateBalance ⟨[("0xc", 7)], 3⟩ "0xa" ZERO_ADDRESS 5).balances c =
        mapGet (⟨[("0xc", 7)], 3⟩ : BalanceTracker).balances c) ∧
    mapGet (updateBalance ⟨[("0xc", 7)], 3⟩ "0xa" ZERO_ADDRESS 5).balances ZERO_ADDRESS =
      mapGet (⟨[("0xc", 7)], 3⟩ : BalanceTracker).balances ZERO_ADDRESS :=
  updateBalance_mint_burn ⟨[("0xc", 7)], 3⟩ "0xa" 5 (by decide)

/-- C10: a self-transfer `updateBalance A A v` (with `A` non-null) leaves every
account's delta unchanged while still incrementing the applied-event counter
reported by `getStats` by exactly one. -/
theorem updateBalance_selfTransfer (st : BalanceTracker) (A : String) (v : Int)
    (hA : A ≠ ZERO_ADDRESS) :
    (∀ c, delta (updateBalance st A A v) c = delta st c) ∧
    (getStats (updateBalance st A A v)).totalTransfers =
      (getStats st).totalTransfers + 1 := by
  constructor
  · intro c
    by_cases hc : c = A
    · subst hc
      simp [updateBalance, delta, hA, mapGet_mapSet_self]
    · simp [updateBalance, delta, hA, mapGet_mapSet_ne _ _ _ _ hc]
  · simp [updateBalance, getStats, hA]

/-- C10 witness: self-transfer at a concrete ledger. -/
theorem updateBalance_selfTransfer_witness :
    (∀ c, delta (updateBalance ⟨[("0xc", 7)], 3⟩ "0xa" "0xa" 5) c =
      delta (⟨[("0xc", 7)], 3⟩ : BalanceTracker) c) ∧
    (getStats (updateBalance ⟨[("0xc", 7)], 3⟩ "0xa" "0xa" 5)).totalTransfers =
      (getStats (⟨[("0xc", 7)], 3⟩ : BalanceTracker)).totalTransfers + 1 :=
  updateBalance_selfTransfer ⟨[("0xc", 7)], 3⟩ "0xa" 5 (by decide)

/-! ### `getTopHolders` (`src/trackers/balanceTracker.ts`) -/

/-- The order induced by the comparator
`(a, b) => (b.balance > a.balance ? 1 : b.balance < a.balance ? -1 : 0)`:
`a` may come before `b` exactly when `b.balance ≤ a.balance`. -/
def holderLE (a b : String × Int) : Prop := b.2 ≤ a.2

instance : DecidableRel holderLE :=
  fun a b => inferInstanceAs (Decidable (b.2 ≤ a.2))

instance : IsTotal (String × Int) holderLE :=
  ⟨fun a b => le_total b.2 a.2⟩

instance : IsTrans (String × Int) holderLE :=
  ⟨fun _ _ _ hab hbc => le_trans hbc hab⟩

/-- The holders array after the stable descending sort, before `slice`.
A stable sort with respect to a total preorder comparator is unique, so the
(engine-dependent but stable, ES2019) `Array.prototype.sort` is modelled by
insertion sort. -/
def sortedHolders (st : BalanceTracker) : List (String × Int) :=
  List.insertionSort holderLE st.balances

/-- `getTopHolders(n)`: map entries in insertion order, stable-sorted by
balance descending, then `slice(0, n)`. -/
def getTopHolders (st : BalanceTracker) (n : Nat) : List (String × Int) :=
  (sortedHolders st).take n

/-- C7: `getTopHolders n` is the `n`-prefix of the stable descending sort of
the ledger: it has `min n (number of known accounts)` entries (so never more
than `n`), is sorted non-increasing by delta, and ties between equal deltas
keep the accounts' insertion order (the sorted list filtered to any one delta
value equals the insertion-ordered ledger filtered to that value). -/
theorem getTopHolders_spec (st : BalanceTracker) (n : Nat) :
    getTopHolders st n = (sortedHolders st).take n ∧
    (getTopHolders st n).length = min n st.balances.length ∧
    List.Pairwise (fun a b : String × Int => b.2 ≤ a.2) (getTopHolders st n) ∧
    ∀ v : Int, (sortedHolders st).filter (fun h => h.2 == v) =
      st.balances.filter (fun h => h.2 == v) := by
  refine ⟨rfl, ?_, ?_, ?_⟩
  · have hlen : (sortedHolders st).length = st.balances.length :=
      (List.perm_insertionSort holderLE st.balances).length_eq
    simp [getTopHolders, List.length_take, hlen]
  · have hs : List.Pairwise holderLE (sortedHolders st) :=
      List.sorted_insertionSort holderLE st.balances
    have hs' : List.Pairwise (fun a b : String × Int => b.2 ≤ a.2) (sortedHolders st) :=
      hs.imp (fun h => h)
    exact hs'.sublist (List.take_sublist n _)
  · intro v
    have hcp : List.Pairwise holderLE (st.balances.filter (fun h => h.2 == v)) := by
      apply List.pairwise_of_forall_mem_list
      intro a ha b hb
      have ha' : a.2 = v := by
        have := (List.mem_filter.mp ha).2
        exact eq_of_beq this
      have hb' : b.2 = v := by
        have := (List.mem_filter.mp hb).2
        exact eq_of_beq this
      show b.2 ≤ a.2
      omega
    have hsub : (st.balances.filter (fun h => h.2 == v)).Sublist (sortedHolders st) :=
      List.sublist_insertionSort hcp (List.filter_sublist _)
    have hfix : (st.balances.filter (fun h => h.2 == v)).filter (fun h => h.2 == v) =
        st.balances.filter (fun h => h.2 == v) :=
      List.filter_eq_self.mpr (fun a ha => (List.mem_filter.mp ha).2)
    have hfsub : (st.balances.filter (fun h => h.2 == v)).Sublist
        ((sortedHolders st).filter (fun h => h.2 == v)) := by
      have := List.Sublist.filter (fun h : String × Int => h.2 == v) hsub
      rwa [hfix] at this
    have hperm : ((sortedHolders st).filter (fun h => h.2 == v)).Perm
        (st.balances.filter (fun h => h.2 == v)) :=
      List.Perm.filter _ (List.perm_insertionSort holderLE st.balances)
    exact (hfsub.eq_of_length hperm.length_eq.symm).symm

/-! ## Transaction grouper (`src/trackers/transactionGrouper.ts`) -/

/-- A decoded ERC-20 transfer event (`src/types`, as produced by
`decodeTransferLog` in the transfer listener). -/
structure TransferEvent where
  from_ : String
  to_ : String
  value : Int
  blockNumber : Nat
  transactionHash : String
  logIndex : Nat
  timestamp : Nat
deriving DecidableEq

/-- Placeholder used to model the partial access `transfers[0]` totally; every
reachable buffer entry is non-empty (see the C2 invariant), so it is never
read on reachable states. -/
def defaultTransferEvent : TransferEvent :=
  { from_ := "", to_ := "", value := 0, blockNumber := 0,
    transactionHash := "", logIndex := 0, timestamp := 0 }

/-- A grouped transaction as emitted by the grouper. -/
structure GroupedTransaction where
  transactionHash : String
  blockNumber : Nat
  timestamp : Nat
  transfers : List TransferEvent
deriving DecidableEq

/-- The module-level mutable state of `transactionGrouper.ts`:
`pendingTransfers : Map<txHash, TransferEvent[]>`, `currentBlock`, and the
two diagnostic counters.  The emission callback is modelled by returning the
list of emitted `GroupedTransaction`s. -/
structure GrouperState where
  pendingTransfers : List (String × List TransferEvent)
  currentBlock : Option Nat
  totalMultiTransferTxs : Nat
  maxTransfersInOneTx : Nat
deriving DecidableEq

/-- The grouper's state at module load. -/
def initialGrouperState : GrouperState :=
  { pendingTransfers := [], currentBlock := none,
    totalMultiTransferTxs := 0, maxTransfersInOneTx := 0 }

/-- The ascending-`logIndex` order of `transfers.sort((a, b) => a.logIndex - b.logIndex)`. -/
def leLogIndex (a b : TransferEvent) : Prop := a.logIndex ≤ b.logIndex

instance : DecidableRel leLogIndex :=
  fun a b => inferInstanceAs (Decidable (a.logIndex ≤ b.logIndex))

instance : IsTotal TransferEvent leLogIndex :=
  ⟨fun a b => Nat.le_total a.logIndex b.logIndex⟩

instance : IsTrans TransferEvent leLogIndex :=
  ⟨fun _ _ _ hab hbc => Nat.le_trans hab hbc⟩

/-- One loop iteration of `flushPendingTransactions`: sort the entry's events
by `logIndex` (a stable sort with respect to a total preorder is unique, so
the stable `Array.prototype.sort` is modelled by insertion sort) and build
the `GroupedTransaction` from the first (lowest `logIndex`) event's
`blockNumber`/`timestamp`. -/
def groupEntry (p : String × List TransferEvent) : GroupedTransaction :=
  let sorted := List.insertionSort leLogIndex p.2
  { transactionHash := p.1
    blockNumber := (sorted.headD defaultTransferEvent).blockNumber
    timestamp := (sorted.headD defaultTransferEvent).timestamp
    transfers := sorted }

/-- `flushPendingTransactions()`: emit one `GroupedTransaction` per buffered
entry (in insertion order), update the multi-transfer counters, and clear the
buffer.  `currentBlock` is left untouched. -/
def flushPendingTransactions (st : GrouperState) :
    List GroupedTransaction × GrouperState :=
  let emitted := st.pendingTransfers.map groupEntry
  let stats :=
    st.pendingTransfers.foldl
      (fun acc p =>
        if p.2.length > 1 then
          (acc.1 + 1, if p.2.length > acc.2 then p.2.length else acc.2)
        else acc)
      (st.totalMultiTransferTxs, st.maxTransfersInOneTx)
  (emitted,
    { pendingTransfers := []
      currentBlock := st.currentBlock
      totalMultiTransferTxs := stats.1
      maxTransfersInOneTx := stats.2 })

/-- `addTransfer(transfer)`: flush first when the event's block number exceeds
the current block, record the event's block as current, then append the event
to its transaction's buffer entry. -/
def addTransfer (st : GrouperState) (transfer : TransferEvent) :
    List GroupedTransaction × GrouperState :=
  let flushed :=
    match st.currentBlock with
    | some cb =>
        if cb < transfer.blockNumber then flushPendingTransactions st else ([], st)
    | none => ([], st)
  let st₂ := { flushed.2 with currentBlock := some transfer.blockNumber }
  let existing := (mapGet st₂.pendingTransfers transfer.transactionHash).getD []
  let newPending :=
    mapSet st₂.pendingTransfers transfer.transactionHash (existing ++ [transfer])
  (flushed.1, { st₂ with pendingTransfers := newPending })

/-! ### Claim C1: flush emits each transaction once, ordered by `logIndex` -/

/-- Strict `logIndex` order is vacuously antisymmetric. -/
theorem ltLogIndex_antisymm :
    IsAntisymm TransferEvent (fun a b => a.logIndex < b.logIndex) :=
  ⟨fun _ _ hab hba => absurd hba (by omega)⟩

/-- What C1 asserts of one buffered entry `p` of a buffer state `st`: exactly
one emitted group carries `p`'s transaction id; it is `groupEntry p`, whose
transfers are a permutation of the buffered events sorted strictly ascending
by `logIndex`, whose `blockNumber`/`timestamp` come from the lowest-`logIndex`
event, and which is independent of the arrival order of the events. -/
def FlushEmitsOrderedGroup (st : GrouperState) (p : String × List TransferEvent) : Prop :=
  (flushPendingTransactions st).1.countP (fun g => g.transactionHash == p.1) = 1 ∧
  groupEntry p ∈ (flushPendingTransactions st).1 ∧
  ((groupEntry p).transfers).Perm p.2 ∧
  ((groupEntry p).transfers).Pairwise (fun a b => a.logIndex < b.logIndex) ∧
  (∃ e, e ∈ p.2 ∧ (groupEntry p).blockNumber = e.blockNumber ∧
    (groupEntry p).timestamp = e.timestamp ∧ ∀ e' ∈ p.2, e.logIndex ≤ e'.logIndex) ∧
  (∀ l', l'.Perm p.2 → groupEntry (p.1, l') = groupEntry p)

/-- The sorted transfers of an entry with pairwise-distinct `logIndex` values
are strictly ascending by `logIndex`. -/
theorem groupEntry_sorted_strict (p : String × List TransferEvent)
    (hnd : p.2.Pairwise (fun a b => a.logIndex ≠ b.logIndex)) :
    ((groupEntry p).transfers).Pairwise (fun a b => a.logIndex < b.logIndex) := by
  have hperm : (List.insertionSort leLogIndex p.2).Perm p.2 :=
    List.perm_insertionSort leLogIndex p.2
  have hle : (List.insertionSort leLogIndex p.2).Pairwise leLogIndex :=
    List.sorted_insertionSort leLogIndex p.2
  have hne : (List.insertionSort leLogIndex p.2).Pairwise
      (fun a b => a.logIndex ≠ b.logIndex) :=
    (List.Perm.pairwise_iff (fun h => Ne.symm h) hperm).mpr hnd
  refine (hle.and hne).imp ?_
  intro a b hab
  have h1 : a.logIndex ≤ b.logIndex := hab.1
  have h2 : a.logIndex ≠ b.logIndex := hab.2
  omega

/-- C1: for every buffer state whose transaction ids are distinct (`Map` key
uniqueness) and whose entries are non-empty with pairwise-distinct `logIndex`
values (the data-model invariant), `flushPendingTransactions` emits, for each
buffered transaction id, exactly one `GroupedTransaction`, whose transfers
list is the buffered events sorted strictly ascending by `logIndex`, whose
`blockNumber` and `timestamp` are taken from the lowest-`logIndex` event, and
whose value does not depend on the order in which the events were added. -/
theorem flush_emits_ordered_groups (st : GrouperState)
    (p : String × List TransferEvent)
    (hmem : p ∈ st.pendingTransfers)
    (hkeys : (st.pendingTransfers.map Prod.fst).Nodup)
    (hne : p.2 ≠ [])
    (hnd : p.2.Pairwise (fun a b => a.logIndex ≠ b.logIndex)) :
    FlushEmitsOrderedGroup st p := by
  have hperm : (List.insertionSort leLogIndex p.2).Perm p.2 :=
    List.perm_insertionSort leLogIndex p.2
  have hstrict := groupEntry_sorted_strict p hnd
  refine ⟨?_, ?_, hperm, hstrict, ?_, ?_⟩
  · have hcm : (flushPendingTransactions st).1.countP
        (fun g => g.transactionHash == p.1) =
        st.pendingTransfers.countP (fun q => q.1 == p.1) := by
      simp only [flushPendingTransactions]
      exact List.countP_map (fun g : GroupedTransaction => g.transactionHash == p.1)
        groupEntry st.pendingTransfers
    have hfst : p.1 ∈ st.pendingTransfers.map Prod.fst :=
      List.mem_map_of_mem Prod.fst hmem
    have hcount : List.count p.1 (st.pendingTransfers.map Prod.fst) = 1 :=
      List.count_eq_one_of_mem hkeys hfst
    have hcp : st.pendingTransfers.countP (fun q => q.1 == p.1) = 1 := by
      have h := List.countP_map (fun x : String => x == p.1) Prod.fst st.pendingTransfers
      have hc : List.count p.1 (st.pendingTransfers.map Prod.fst) =
          (st.pendingTransfers.map Prod.fst).countP (fun x => x == p.1) := rfl
      rw [hc, h] at hcount
      exact hcount
    rw [hcm, hcp]
  · exact List.mem_map_of_mem groupEntry hmem
  · have hsne : List.insertionSort leLogIndex p.2 ≠ [] := by
      intro h0
      have h1 : ([] : List TransferEvent).Perm p.2 := by
        rw [← h0]
        exact hperm
      exact hne h1.symm.eq_nil
    cases hsort : List.insertionSort leLogIndex p.2 with
    | nil => exact absurd hsort hsne
    | cons e t =>
      have hgt : (groupEntry p).transfers = e :: t := by
        simp [groupEntry, hsort]
      refine ⟨e, ?_, ?_, ?_, ?_⟩
      · have he : e ∈ List.insertionSort leLogIndex p.2 := by simp [hsort]
        exact hperm.mem_iff.mp he
      · simp [groupEntry, hsort]
      · simp [groupEntry, hsort]
      · intro e' he'
        have hmem' : e' ∈ e :: t := by
          rw [← hsort]
          exact hperm.mem_iff.mpr he'
        have hpw : (e :: t).Pairwise (fun a b => a.logIndex < b.logIndex) := by
          rw [← hgt]
          exact hstrict
        rcases List.mem_cons.mp hmem' with h | h
        · simp [h]
        · exact le_of_lt ((List.pairwise_cons.mp hpw).1 e' h)
  · intro l' hl'
    have hperm' : (List.insertionSort leLogIndex l').Perm
        (List.insertionSort leLogIndex p.2) :=
      ((List.perm_insertionSort leLogIndex l').trans hl').trans hperm.symm
    have hnd' : l'.Pairwise (fun a b => a.logIndex ≠ b.logIndex) :=
      (List.Perm.pairwise_iff (fun h => Ne.symm h) hl').mpr hnd
    have hstrict' := groupEntry_sorted_strict (p.1, l') hnd'
    have heq : List.insertionSort leLogIndex l' = List.insertionSort leLogIndex p.2 :=
      @List.eq_of_perm_of_sorted TransferEvent (fun a b => a.logIndex < b.logIndex)
        ltLogIndex_antisymm _ _ hperm' hstrict' hstrict
    simp [groupEntry, heq]

/-- Spec §8 scenario, block 100, `tx = T1`: `logIndex 2, A→B, 5`. -/
def te2 : TransferEvent :=
  { from_ := "0xA", to_ := "0xB", value := 5, blockNumber := 100,
    transactionHash := "T1", logIndex := 2, timestamp := 1000 }

/-- Spec §8 scenario: `logIndex 0, B→C, 3`. -/
def te0 : TransferEvent :=
  { from_ := "0xB", to_ := "0xC", value := 3, blockNumber := 100,
    transactionHash := "T1", logIndex := 0, timestamp := 1000 }

/-- Spec §8 scenario: `logIndex 1, C→A, 3`. -/
def te1 : TransferEvent :=
  { from_ := "0xC", to_ := "0xA", value := 3, blockNumber := 100,
    transactionHash := "T1", logIndex := 1, timestamp := 1000 }

/-- The grouper's buffer after the three scenario events arrive out of order. -/
def scenarioGrouperState : GrouperState :=
  { pendingTransfers := [("T1", [te2, te0, te1])], currentBlock := some 100,
    totalMultiTransferTxs := 0, maxTransfersInOneTx := 0 }

/-- C1 witness: the flush property at the spec's §8 out-of-order scenario. -/
theorem flush_emits_ordered_groups_witness :
    FlushEmitsOrderedGroup scenarioGrouperState ("T1", [te2, te0, te1]) :=
  flush_emits_ordered_groups scenarioGrouperState ("T1", [te2, te0, te1])
    (by decide) (by decide) (by decide) (by decide)

/-! ### Claim C2: buffer/emission invariants across call sequences -/

theorem mapGet_mem {β : Type} (m : List (String × β)) (k : String) (v : β)
    (h : mapGet m k = some v) : (k, v) ∈ m := by
  induction m with
  | nil => simp [mapGet] at h
  | cons p rest ih =>
    obtain ⟨k₀, v₀⟩ := p
    by_cases hk : k₀ = k
    · subst hk
      simp [mapGet] at h
      simp [h]
    · simp [mapGet, hk] at h
      exact List.mem_cons_of_mem _ (ih h)

/-- An externally observable grouper call. -/
inductive GrouperOp where
  | add : TransferEvent → GrouperOp
  | flush : GrouperOp
deriving DecidableEq

/-- Run a sequence of grouper calls from a state, collecting every group
emitted through the callback along the way. -/
def runOps : GrouperState → List GrouperOp → List GroupedTransaction × GrouperState
  | st, [] => ([], st)
  | st, GrouperOp.add t :: rest =>
      let r := addTransfer st t
      let r' := runOps r.2 rest
      (r.1 ++ r'.1, r'.2)
  | st, GrouperOp.flush :: rest =>
      let r := flushPendingTransactions st
      let r' := runOps r.2 rest
      (r.1 ++ r'.1, r'.2)

/-- The data-model invariant of an emitted `GroupedTransaction`: non-empty,
and every constituent carries the group's transaction id and block number. -/
def GoodGroup (g : GroupedTransaction) : Prop :=
  g.transfers ≠ [] ∧
  ∀ e ∈ g.transfers, e.transactionHash = g.transactionHash ∧ e.blockNumber = g.blockNumber

/-- The grouper's buffer invariant: every entry is non-empty, keyed by its
events' transaction id, and every buffered event's block number is the
current block. -/
def BufferInv (st : GrouperState) : Prop :=
  ∀ p ∈ st.pendingTransfers, p.2 ≠ [] ∧
    ∀ e ∈ p.2, e.transactionHash = p.1 ∧ some e.blockNumber = st.currentBlock

/-- Arrival monotonicity of a call sequence relative to a current block:
every added event's block number is at least the block current when it
arrives (the real chain feed delivers blocks in order). -/
def monotoneFrom : Option Nat → List GrouperOp → Bool
  | _, [] => true
  | cb, GrouperOp.flush :: rest => monotoneFrom cb rest
  | cb, GrouperOp.add t :: rest =>
      cb.all (fun b => b ≤ t.blockNumber) && monotoneFrom (some t.blockNumber) rest

/-- Under the buffer invariant every group flushed out is well-formed. -/
theorem flush_goodGroups (st : GrouperState) (hinv : BufferInv st) :
    ∀ g ∈ (flushPendingTransactions st).1, GoodGroup g := by
  intro g hg
  simp only [flushPendingTransactions, List.mem_map] at hg
  obtain ⟨p, hp, rfl⟩ := hg
  obtain ⟨hpne, hpev⟩ := hinv p hp
  have hperm : (List.insertionSort leLogIndex p.2).Perm p.2 :=
    List.perm_insertionSort leLogIndex p.2
  have hsne : List.insertionSort leLogIndex p.2 ≠ [] := by
    intro h0
    have h1 : ([] : List TransferEvent).Perm p.2 := by
      rw [← h0]
      exact hperm
    exact hpne h1.symm.eq_nil
  cases hsort : List.insertionSort leLogIndex p.2 with
  | nil => exact absurd hsort hsne
  | cons h t =>
    have htr : (groupEntry p).transfers = h :: t := by
      simp [groupEntry, hsort]
    constructor
    · rw [htr]
      simp
    · intro e he
      rw [htr] at he
      have he2 : e ∈ p.2 := by
        apply hperm.mem_iff.mp
        rw [hsort]
        exact he
      have hh : h ∈ p.2 := hperm.mem_iff.mp (by simp [hsort])
      have h1 := hpev e he2
      have h2 := hpev h hh
      constructor
      · simpa [groupEntry] using h1.1
      · have hsame : some e.blockNumber = some h.blockNumber := by
          rw [h1.2, h2.2]
        have hbn : (groupEntry p).blockNumber = h.blockNumber := by
          simp [groupEntry, hsort]
        rw [hbn]
        exact Option.some.inj hsame

/-- `addTransfer` preserves the buffer invariant when the incoming event's
block is at least the current block, emits only well-formed groups, and
leaves the event's block as the new current block. -/
theorem addTransfer_preserves (st : GrouperState) (t : TransferEvent)
    (hinv : BufferInv st)
    (hmono : st.currentBlock.all (fun b => b ≤ t.blockNumber) = true) :
    BufferInv (addTransfer st t).2 ∧
    (∀ g ∈ (addTransfer st t).1, GoodGroup g) ∧
    (addTransfer st t).2.currentBlock = some t.blockNumber := by
  cases hcb : st.currentBlock with
  | none =>
    have hpend : st.pendingTransfers = [] := by
      cases hpt : st.pendingTransfers with
      | nil => rfl
      | cons q r =>
        obtain ⟨hqne, hqev⟩ := hinv q (by rw [hpt]; exact List.mem_cons_self q r)
        cases hq2 : q.2 with
        | nil => exact absurd hq2 hqne
        | cons e es =>
          have := (hqev e (by rw [hq2]; exact List.mem_cons_self e es)).2
          rw [hcb] at this
          exact absurd this (by simp)
    refine ⟨?_, ?_, ?_⟩
    · intro p hp
      simp only [addTransfer, hcb, hpend, mapGet, mapSet] at hp
      simp only [List.mem_singleton] at hp
      subst hp
      refine ⟨by simp, ?_⟩
      intro e he
      simp only [Option.getD_none, List.nil_append, List.mem_singleton] at he
      subst he
      simp [addTransfer, hcb]
    · intro g hg
      simp [addTransfer, hcb] at hg
    · simp [addTransfer, hcb]
  | some cb =>
    have hle : cb ≤ t.blockNumber := by
      rw [hcb] at hmono
      simpa using hmono
    by_cases hlt : cb < t.blockNumber
    · refine ⟨?_, ?_, ?_⟩
      · intro p hp
        simp only [addTransfer, hcb, if_pos hlt, flushPendingTransactions,
          mapGet, mapSet] at hp
        simp only [List.mem_singleton] at hp
        subst hp
        refine ⟨by simp, ?_⟩
        intro e he
        simp only [Option.getD_none, List.nil_append, List.mem_singleton] at he
        subst he
        simp [addTransfer, hcb, if_pos hlt, flushPendingTransactions]
      · intro g hg
        simp only [addTransfer, hcb, if_pos hlt] at hg
        exact flush_goodGroups st hinv g hg
      · simp [addTransfer, hcb, if_pos hlt, flushPendingTransactions]
    · have heq : cb = t.blockNumber := by omega
      refine ⟨?_, ?_, ?_⟩
      · intro p hp
        simp only [addTransfer, hcb, if_neg hlt] at hp
        rcases mem_mapSet _ _ _ p hp with hold | hnew
        · obtain ⟨hne, hev⟩ := hinv p hold
          refine ⟨hne, ?_⟩
          intro e he
          have := hev e he
          rw [hcb] at this
          simp only [addTransfer, hcb, if_neg hlt]
          exact ⟨this.1, by rw [this.2, heq]⟩
        · subst hnew
          constructor
          · simp
          · intro e he
            rcases List.mem_append.mp he with hex | ht
            · cases hget : mapGet st.pendingTransfers t.transactionHash with
              | none =>
                rw [hget] at hex
                simp at hex
              | some l =>
                rw [hget] at hex
                simp only [Option.getD_some] at hex
                have hl := hinv _ (mapGet_mem _ _ _ hget)
                have := hl.2 e hex
                rw [hcb] at this
                simp only [addTransfer, hcb, if_neg hlt]
                exact ⟨this.1, by rw [this.2, heq]⟩
            · simp only [List.mem_singleton] at ht
              subst ht
              simp [addTransfer, hcb, if_neg hlt]
      · intro g hg
        simp [addTransfer, hcb, if_neg hlt] at hg
      · simp [addTransfer, hcb, if_neg hlt]

/-- Invariant propagation along any monotone call sequence. -/
theorem runOps_goodGroups (ops : List GrouperOp) :
    ∀ st : GrouperState, BufferInv st → monotoneFrom st.currentBlock ops = true →
      (∀ g ∈ (runOps st ops).1, GoodGroup g) ∧ BufferInv (runOps st ops).2 := by
  induction ops with
  | nil =>
    intro st hinv _
    exact ⟨by simp [runOps], hinv⟩
  | cons op rest ih =>
    intro st hinv hmono
    cases op with
    | flush =>
      have hflush := flush_goodGroups st hinv
      have hinv' : BufferInv (flushPendingTransactions st).2 := by
        intro p hp
        simp [flushPendingTransactions] at hp
      have hcb : (flushPendingTransactions st).2.currentBlock = st.currentBlock := by
        simp [flushPendingTransactions]
      have hmono' :
          monotoneFrom (flushPendingTransactions st).2.currentBlock rest = true := by
        rw [hcb]
        simpa [monotoneFrom] using hmono
      obtain ⟨hg, hi⟩ := ih _ hinv' hmono'
      constructor
      · intro g hgm
        simp only [runOps, List.mem_append] at hgm
        rcases hgm with h | h
        · exact hflush g h
        · exact hg g h
      · simpa [runOps] using hi
    | add t =>
      have hsplit := hmono
      simp only [monotoneFrom, Bool.and_eq_true] at hsplit
      obtain ⟨hnow, hrest⟩ := hsplit
      obtain ⟨hinv', hemit, hcb⟩ := addTransfer_preserves st t hinv hnow
      have hmono' : monotoneFrom (addTransfer st t).2.currentBlock rest = true := by
        rw [hcb]
        exact hrest
      obtain ⟨hg, hi⟩ := ih _ hinv' hmono'
      constructor
      · intro g hgm
        simp only [runOps, List.mem_append] at hgm
        rcases hgm with h | h
        · exact hemit g h
        · exact hg g h
      · simpa [runOps] using hi

/-- Two transfers of one transaction arriving with a DECREASING block number:
first block 10, then block 9 (`addTransfer` flushes only on a higher block). -/
def teHi : TransferEvent :=
  { from_ := "0xA", to_ := "0xB", value := 1, blockNumber := 10,
    transactionHash := "T2", logIndex := 0, timestamp := 0 }

/-- The same transaction's second transfer, carrying the lower block 9. -/
def teLo : TransferEvent :=
  { from_ := "0xB", to_ := "0xC", value := 2, blockNumber := 9,
    transactionHash := "T2", logIndex := 1, timestamp := 0 }

/-- C2 counterexample: when an event's block number is LOWER than the current
block, `addTransfer` does not flush, so the buffer mixes block numbers and
the flushed group violates the all-constituents-share-one-`blockNumber`
invariant: the run `add (block 10); add (block 9); flush` emits exactly one
group, built from the block-10 event, that also contains the block-9 event. -/
theorem grouper_mixed_block_group :
    (runOps initialGrouperState
        [GrouperOp.add teHi, GrouperOp.add teLo, GrouperOp.flush]).1 =
      [⟨"T2", 10, 0, [teHi, teLo]⟩] ∧
    teHi.blockNumber = 10 ∧ teLo.blockNumber = 9 ∧
    ¬ GoodGroup ⟨"T2", 10, 0, [teHi, teLo]⟩ := by
  refine ⟨by decide, rfl, rfl, ?_⟩
  intro hgg
  have := (hgg.2 teLo (by simp)).2
  simp [teLo] at this

/-- C2 (amended): along every call sequence in which each added event's block
number is at least the block current at its arrival (monotone arrival, as on
the real chain feed), the grouper's buffer invariant holds and every emitted
`GroupedTransaction` is non-empty with all constituents sharing its
transaction id and its block number.  (By `grouper_mixed_block_group`, the
block-sharing part fails for sequences where an event's block number is lower
than the current block, so the claim's unrestricted quantification over all
sequences does not hold.) -/
theorem grouper_emits_wellformed_groups (ops : List GrouperOp)
    (g : GroupedTransaction)
    (hmono : monotoneFrom none ops = true)
    (hg : g ∈ (runOps initialGrouperState ops).1) :
    GoodGroup g ∧ BufferInv (runOps initialGrouperState ops).2 := by
  have hinv : BufferInv initialGrouperState := by
    intro p hp
    simp [initialGrouperState] at hp
  have hm : monotoneFrom initialGrouperState.currentBlock ops = true := by
    simpa [initialGrouperState] using hmono
  obtain ⟨hgood, hi⟩ := runOps_goodGroups ops initialGrouperState hinv hm
  exact ⟨hgood g hg, hi⟩

/-- C2 witness: the amended invariant at the spec's §8 scenario followed by a
flush. -/
theorem grouper_emits_wellformed_groups_witness :
    GoodGroup ⟨"T1", 100, 1000, [te0, te1, te2]⟩ ∧
    BufferInv (runOps initialGrouperState
      [GrouperOp.add te2, GrouperOp.add te0, GrouperOp.add te1, GrouperOp.flush]).2 :=
  grouper_emits_wellformed_groups
    [GrouperOp.add te2, GrouperOp.add te0, GrouperOp.add te1, GrouperOp.flush]
    ⟨"T1", 100, 1000, [te0, te1, te2]⟩ (by decide) (by decide)

/-! ## Connection supervisor (`src/index.ts`) -/

/-- `const MAX_RECONNECT_ATTEMPTS = 20`. -/
def MAX_RECONNECT_ATTEMPTS : Nat := 20

/-- `const BASE_DELAY_MS = 10000` (start with 10 seconds). -/
def BASE_DELAY_MS : Nat := 10000

/-- `const MAX_DELAY_MS = 5 * 60 * 1000` (max 5 minutes between attempts). -/
def MAX_DELAY_MS : Nat := 5 * 60 * 1000

/-- `const STABLE_CONNECTION_THRESHOLD = 30000` (stable after 30 s). -/
def STABLE_CONNECTION_THRESHOLD : Nat := 30000

/-- `connectWithRetry`'s pre-jitter component for the given (already
incremented) attempt number:
`Math.min(BASE_DELAY_MS * Math.pow(2, reconnectAttempts - 1), MAX_DELAY_MS)`. -/
def exponentialDelay (attempt : Nat) : Nat :=
  min (BASE_DELAY_MS * 2 ^ (attempt - 1)) MAX_DELAY_MS

/-- `delay = exponentialDelay + jitter` with `jitter = Math.random() * 1000`
(the jitter is added AFTER the cap). -/
def backoffDelay (attempt : Nat) (jitter : ℚ) : ℚ :=
  (exponentialDelay attempt : ℚ) + jitter

/-- The delay actually waited for a failed attempt:
`Math.min(delay * 2, MAX_DELAY_MS)` when the error is a 429 rate limit,
`delay` otherwise. -/
def attemptWait (attempt : Nat) (jitter : ℚ) (isRateLimited : Bool) : ℚ :=
  if isRateLimited then min (backoffDelay attempt jitter * 2) (MAX_DELAY_MS : ℚ)
  else backoffDelay attempt jitter

/-- C4 counterexample: within the attempt ceiling and the [0, 1000) jitter
window, the delay of attempt 7 with jitter 0 is SMALLER than the delay of
attempt 6 with jitter 999 (monotonicity fails once the exponential component
is capped), and the delay of attempt 6 with jitter 999 EXCEEDS MAX_DELAY_MS
(the jitter is added after the cap). -/
theorem backoffDelay_not_monotone_not_capped :
    (1 ≤ 6 ∧ 6 + 1 ≤ MAX_RECONNECT_ATTEMPTS) ∧
    ((0 : ℚ) ≤ 999 ∧ (999 : ℚ) < 1000 ∧ (0 : ℚ) ≤ 0 ∧ (0 : ℚ) < 1000) ∧
    backoffDelay 7 0 < backoffDelay 6 999 ∧
    (MAX_DELAY_MS : ℚ) < backoffDelay 6 999 := by
  norm_num [backoffDelay, exponentialDelay, BASE_DELAY_MS, MAX_DELAY_MS,
    MAX_RECONNECT_ATTEMPTS]

/-- C4 (amended): the pre-jitter exponential component is monotone
non-decreasing in the attempt number and never exceeds `MAX_DELAY_MS`; the
waited delay adds jitter from `[0, 1000)` after the cap, so between
consecutive failed attempts it can decrease by less than the jitter window
but no more, and it can exceed `MAX_DELAY_MS` by less than the jitter window
but no more (`backoffDelay_not_monotone_not_capped` shows the unamended
bounds fail). -/
theorem backoffDelay_monotone_up_to_jitter (k : Nat) (j j' : ℚ)
    (hk : 1 ≤ k) (hj0 : 0 ≤ j) (hj1 : j < 1000) (hj0' : 0 ≤ j') (hj1' : j' < 1000) :
    exponentialDelay k ≤ exponentialDelay (k + 1) ∧
    exponentialDelay k ≤ MAX_DELAY_MS ∧
    backoffDelay k j - 1000 < backoffDelay (k + 1) j' ∧
    backoffDelay k j < (MAX_DELAY_MS : ℚ) + 1000 := by
  have hmono : exponentialDelay k ≤ exponentialDelay (k + 1) := by
    unfold exponentialDelay
    have hpow : (2 : Nat) ^ (k - 1) ≤ 2 ^ (k + 1 - 1) :=
      Nat.pow_le_pow_right (by norm_num) (by omega)
    exact min_le_min (Nat.mul_le_mul_left _ hpow) (le_refl _)
  have hcap : exponentialDelay k ≤ MAX_DELAY_MS := Nat.min_le_right _ _
  have hmonoQ : (exponentialDelay k : ℚ) ≤ (exponentialDelay (k + 1) : ℚ) := by
    exact_mod_cast hmono
  have hcapQ : (exponentialDelay k : ℚ) ≤ (MAX_DELAY_MS : ℚ) := by
    exact_mod_cast hcap
  refine ⟨hmono, hcap, ?_, ?_⟩
  · simp only [backoffDelay]
    linarith
  · simp only [backoffDelay]
    linarith

/-- C4 witness: the amended bounds at attempt 1 with zero jitters. -/
theorem backoffDelay_monotone_up_to_jitter_witness :
    exponentialDelay 1 ≤ exponentialDelay 2 ∧
    exponentialDelay 1 ≤ MAX_DELAY_MS ∧
    backoffDelay 1 0 - 1000 < backoffDelay 2 0 ∧
    backoffDelay 1 0 < (MAX_DELAY_MS : ℚ) + 1000 :=
  backoffDelay_monotone_up_to_jitter 1 0 0 (by norm_num) (by norm_num)
    (by norm_num) (by norm_num) (by norm_num)

/-- C9 counterexample: at attempt 5 with zero jitter the computed backoff
delay is 160000 ms; doubling would give 320000 ms, but the code waits
`min(320000, 300000) = 300000` ms — not the computed delay times the fixed
factor 2. -/
theorem attemptWait_rateLimit_not_doubled :
    backoffDelay 5 0 = 160000 ∧
    attemptWait 5 0 true = 300000 ∧
    attemptWait 5 0 true ≠ backoffDelay 5 0 * 2 := by
  norm_num [attemptWait, backoffDelay, exponentialDelay, BASE_DELAY_MS, MAX_DELAY_MS]

/-- C9 (amended): on a 429 rate-limit failure the waited delay equals
`min(2 × computed delay, MAX_DELAY_MS)` — the doubling is additionally capped
at the maximum delay; it equals exactly twice the computed delay only when
that does not exceed `MAX_DELAY_MS`, and it never exceeds `MAX_DELAY_MS`. -/
theorem attemptWait_rateLimit_capped_double (k : Nat) (j : ℚ) (hj : 0 ≤ j) :
    attemptWait k j true = min (backoffDelay k j * 2) (MAX_DELAY_MS : ℚ) ∧
    (backoffDelay k j * 2 ≤ (MAX_DELAY_MS : ℚ) →
      attemptWait k j true = backoffDelay k j * 2) ∧
    attemptWait k j true ≤ (MAX_DELAY_MS : ℚ) := by
  refine ⟨rfl, ?_, ?_⟩
  · intro h
    simp [attemptWait, min_eq_left h]
  · simp only [attemptWait, if_pos]
    exact min_le_right _ _

/-- C9 witness: the capped doubling at attempt 1 with zero jitter. -/
theorem attemptWait_rateLimit_capped_double_witness :
    attemptWait 1 0 true = min (backoffDelay 1 0 * 2) (MAX_DELAY_MS : ℚ) ∧
    (backoffDelay 1 0 * 2 ≤ (MAX_DELAY_MS : ℚ) →
      attemptWait 1 0 true = backoffDelay 1 0 * 2) ∧
    attemptWait 1 0 true ≤ (MAX_DELAY_MS : ℚ) :=
  attemptWait_rateLimit_capped_double 1 0 (by norm_num)

/-! ### Claim C8: disconnect backoff, stability reset -/

/-- The supervisor state read by `handleDisconnect`. -/
structure SupervisorState where
  disconnectCount : Nat
  lastStableConnection : ℚ
deriving DecidableEq

/-- The backoff decision of `handleDisconnect` after it increments
`disconnectCount`: if the connection failed inside the stability window
(`Date.now() - lastStableConnection < STABLE_CONNECTION_THRESHOLD`), wait
`min(BASE_DELAY_MS * 2^(disconnectCount - 1), MAX_DELAY_MS) + jitter` with
jitter drawn from `[0, 5000)`; if it had been stable, reset the counter to 1
and wait a fixed 5000 ms.  Returns (delay, new `disconnectCount`). -/
def handleDisconnectDelay (st : SupervisorState) (now jitter : ℚ) : ℚ × Nat :=
  let dc := st.disconnectCount + 1
  if now - st.lastStableConnection < (STABLE_CONNECTION_THRESHOLD : ℚ) then
    ((exponentialDelay dc : ℚ) + jitter, dc)
  else (5000, 1)

/-- C8: for the same prior state (hence the same disconnect count), a
disconnect inside the stability window waits strictly longer than one after
stability was reached, for every non-negative jitter; and the stable case
resets the disconnect counter to 1. -/
theorem handleDisconnect_unstable_larger (st : SupervisorState)
    (now₁ now₂ j₁ j₂ : ℚ) (hj : 0 ≤ j₁)
    (hunstable : now₁ - st.lastStableConnection < (STABLE_CONNECTION_THRESHOLD : ℚ))
    (hstable : ¬ now₂ - st.lastStableConnection < (STABLE_CONNECTION_THRESHOLD : ℚ)) :
    (handleDisconnectDelay st now₂ j₂).1 < (handleDisconnectDelay st now₁ j₁).1 ∧
    (handleDisconnectDelay st now₂ j₂).2 = 1 := by
  have hexp : (10000 : Nat) ≤ exponentialDelay (st.disconnectCount + 1) := by
    unfold exponentialDelay
    apply le_min
    · have h1 : (1 : Nat) ≤ 2 ^ (st.disconnectCount + 1 - 1) := Nat.one_le_two_pow
      calc (10000 : Nat) = BASE_DELAY_MS * 1 := by norm_num [BASE_DELAY_MS]
        _ ≤ BASE_DELAY_MS * 2 ^ (st.disconnectCount + 1 - 1) :=
          Nat.mul_le_mul_left _ h1
    · norm_num [MAX_DELAY_MS]
  have hexpQ : (10000 : ℚ) ≤ (exponentialDelay (st.disconnectCount + 1) : ℚ) := by
    exact_mod_cast hexp
  constructor
  · simp only [handleDisconnectDelay, if_pos hunstable, if_neg hstable]
    linarith
  · simp [handleDisconnectDelay, hstable]

/-- C8 witness: disconnect count 2, unstable at `now = 0`, stable at
`now = 40000`, jitters 100 and 0. -/
theorem handleDisconnect_unstable_larger_witness :
    (handleDisconnectDelay ⟨2, 0⟩ 40000 0).1 < (handleDisconnectDelay ⟨2, 0⟩ 0 100).1 ∧
    (handleDisconnectDelay ⟨2, 0⟩ 40000 0).2 = 1 :=
  handleDisconnect_unstable_larger ⟨2, 0⟩ 0 40000 100 0 (by norm_num)
    (by norm_num [STABLE_CONNECTION_THRESHOLD])
    (by norm_num [STABLE_CONNECTION_THRESHOLD])

/-! ### Claim C3: fatal exhaustion and the final flush -/

/-- Observable events on the supervisor's fatal path. -/
inductive ConnEvent where
  | evFlush : ConnEvent
  | evSleep : ℚ → ConnEvent
  | evConnected : ConnEvent
  | evExit : Nat → ConnEvent
deriving DecidableEq

/-- One failed connection attempt of the retry loop: whether the error was a
429 rate limit and the jitter drawn for it. -/
structure FailureCase where
  isRateLimited : Bool
  jitter : ℚ
deriving DecidableEq

/-- The `connectWithRetry` loop as a trace over a failure scenario: while the
attempt counter is below `MAX_RECONNECT_ATTEMPTS`, each scheduled failure
increments the counter and sleeps the (rate-limit amplified) backoff delay;
when the failure list is exhausted the next attempt succeeds; when the
ceiling is reached the loop exits the process with code 1 — this branch
itself performs NO flush. -/
def connectWithRetryTrace (attempts : Nat) : List FailureCase → List ConnEvent
  | [] =>
      if MAX_RECONNECT_ATTEMPTS ≤ attempts then [ConnEvent.evExit 1]
      else [ConnEvent.evConnected]
  | f :: rest =>
      if MAX_RECONNECT_ATTEMPTS ≤ attempts then [ConnEvent.evExit 1]
      else
        ConnEvent.evSleep (attemptWait (attempts + 1) f.jitter f.isRateLimited) ::
          connectWithRetryTrace (attempts + 1) rest

/-- The initial startup call `await connectWithRetry()` in `main`, with the
global `reconnectAttempts` at 0; nothing on this path flushes. -/
def mainConnectTrace (failures : List FailureCase) : List ConnEvent :=
  connectWithRetryTrace 0 failures

/-- `handleDisconnect()` — the reconnection path: flush pending transactions
first, destroy the provider, sleep the disconnect backoff, then re-enter
`connectWithRetry`. -/
def handleDisconnectTrace (st : SupervisorState) (now jitter : ℚ)
    (attempts : Nat) (failures : List FailureCase) : List ConnEvent :=
  ConnEvent.evFlush ::
    ConnEvent.evSleep (handleDisconnectDelay st now jitter).1 ::
      connectWithRetryTrace attempts failures

/-- Exhausting the remaining attempt budget makes the retry loop exit 1. -/
theorem connectWithRetryTrace_exit (failures : List FailureCase) :
    ∀ attempts, MAX_RECONNECT_ATTEMPTS ≤ attempts + failures.length →
      ConnEvent.evExit 1 ∈ connectWithRetryTrace attempts failures := by
  induction failures with
  | nil =>
    intro attempts h
    simp only [List.length_nil, Nat.add_zero] at h
    simp [connectWithRetryTrace, h]
  | cons f rest ih =>
    intro attempts h
    by_cases hc : MAX_RECONNECT_ATTEMPTS ≤ attempts
    · simp [connectWithRetryTrace, hc]
    · have h' : MAX_RECONNECT_ATTEMPTS ≤ (attempts + 1) + rest.length := by
        simp only [List.length_cons] at h
        omega
      simp only [connectWithRetryTrace, if_neg hc]
      exact List.mem_cons_of_mem _ (ih (attempts + 1) h')

/-- C3 counterexample: when the INITIAL startup call of `connectWithRetry`
(entered from `main` with `reconnectAttempts = 0`, before any listener or
flush) fails 20 times, the process exits with code 1 while no flush was
attempted anywhere in the trace: the exhaustion branch calls
`process.exit(1)` directly, and only the disconnect handler flushes. -/
theorem mainConnect_exit_without_flush :
    ConnEvent.evExit 1 ∈ mainConnectTrace (List.replicate 20 ⟨false, 0⟩) ∧
    ConnEvent.evFlush ∉ mainConnectTrace (List.replicate 20 ⟨false, 0⟩) := by
  decide

/-- C3 (amended): on the reconnection path — the retry loop re-entered from
the disconnect handler — a best-effort flush is the first action, so when the
loop exhausts its attempt ceiling the non-zero exit is preceded by the flush
attempt; on the initial startup path the exhaustion exit happens with no
flush attempted (`mainConnect_exit_without_flush`), though nothing has been
buffered there. -/
theorem handleDisconnect_flush_before_exit (st : SupervisorState)
    (now jitter : ℚ) (attempts : Nat) (failures : List FailureCase)
    (hexhaust : MAX_RECONNECT_ATTEMPTS ≤ attempts + failures.length) :
    (handleDisconnectTrace st now jitter attempts failures).head? =
      some ConnEvent.evFlush ∧
    ConnEvent.evExit 1 ∈ (handleDisconnectTrace st now jitter attempts failures).tail := by
  refine ⟨rfl, ?_⟩
  simp only [handleDisconnectTrace, List.tail_cons]
  exact List.mem_cons_of_mem _ (connectWithRetryTrace_exit failures attempts hexhaust)

/-- C3 witness: a reconnection episode whose 20 attempts all fail. -/
theorem handleDisconnect_flush_before_exit_witness :
    (handleDisconnectTrace ⟨1, 0⟩ 0 0 0 (List.replicate 20 ⟨false, 0⟩)).head? =
      some ConnEvent.evFlush ∧
    ConnEvent.evExit 1 ∈ (handleDisconnectTrace ⟨1, 0⟩ 0 0 0
      (List.replicate 20 ⟨false, 0⟩)).tail :=
  handleDisconnect_flush_before_exit ⟨1, 0⟩ 0 0 0 (List.replicate 20 ⟨false, 0⟩)
    (by decide)
